import Mathlib

/-!
Verification development for the `hp_smart` repository (single source file
`test12.py`).  Each Python function relevant to a specification claim is
shallowly embedded as a Lean definition: pure helpers become Lean functions,
the Selenium/pywinauto world is modelled by explicit environment records of
oracle outcomes, wall-clock time in the Mailsac polling loop is modelled by a
fuel count of loop iterations (one per elapsed `poll_interval`), and JSON
documents become an inductive type whose objects are ordered association
lists, mirroring Python `dict` insertion-order semantics.
-/

namespace HpSmart

/-! ## JSON model and `merge_config` (test12.py lines 89-95)

A Python `json.load` result is one of: string, number, bool, null, list or
dict.  Dicts are modelled as ordered association lists (Python dicts preserve
insertion order; assigning to an existing key keeps its position, assigning a
new key appends).  `merge_config` only inspects dict-ness of values, so
numbers are modelled by `Int` without loss. -/

inductive Json where
  | str (s : String)
  | num (n : Int)
  | bool (b : Bool)
  | null
  | arr (elems : List Json)
  | obj (fields : List (String × Json))

/-- Tests for the constructor corresponding to a Python `dict`
(the `isinstance(value, dict)` test in `merge_config`). -/
def Json.isObj : Json → Bool
  | .obj _ => true
  | _ => false

/-- Python `key in defaults` / `defaults[key]` read on an insertion-ordered
dict: first binding of the key. -/
def lookupKey : List (String × Json) → String → Option Json
  | [], _ => none
  | (k', v) :: rest, k => if k' = k then some v else lookupKey rest k

/-- Python `defaults[key] = value` on an insertion-ordered dict: replace the
first binding of the key in place, or append a new binding. -/
def setKey : List (String × Json) → String → Json → List (String × Json)
  | [], k, v => [(k, v)]
  | (k', v') :: rest, k, v =>
      if k' = k then (k, v) :: rest else (k', v') :: setKey rest k v

/-- Embedding of `merge_config(defaults, overrides)` (test12.py lines 89-95):
for each key/value of `overrides` in order, recurse when both sides hold a
dict, otherwise assign.  The Python function mutates `defaults`; the
embedding returns the mutated value. -/
def merge_config : List (String × Json) → List (String × Json) → List (String × Json)
  | defaults, [] => defaults
  | defaults, (k, Json.obj o) :: rest =>
      (match lookupKey defaults k with
       | some (Json.obj dd) =>
           merge_config (setKey defaults k (Json.obj (merge_config dd o))) rest
       | _ => merge_config (setKey defaults k (Json.obj o)) rest)
  | defaults, (k, v) :: rest => merge_config (setKey defaults k v) rest

/-- The keys of an object, in order. -/
def keysOf (l : List (String × Json)) : List String := l.map Prod.fst

mutual
/-- Well-formedness of a JSON value as produced by `json.load`: every object
reachable outside of arrays has pairwise-distinct keys (a Python `dict`
cannot hold a duplicate key).  Arrays are never entered by `merge_config`,
which treats them as atoms, so their contents are unconstrained. -/
def jsonWF : Json → Bool
  | .obj l => listWF l
  | _ => true

/-- Well-formedness of an object's field list: no duplicate keys, and each
value well-formed. -/
def listWF : List (String × Json) → Bool
  | [] => true
  | (k, v) :: rest => !((keysOf rest).contains k) && jsonWF v && listWF rest
end

/-- Nested lookup along a non-empty path `k :: p` of keys. -/
def lookupPath (l : List (String × Json)) : String → List String → Option Json
  | k, [] => lookupKey l k
  | k, k' :: p =>
      match lookupKey l k with
      | some (Json.obj m) => lookupPath m k' p
      | _ => none

/-- The value that one step of `merge_config` assigns for the override entry
`(k, v)`: the recursive merge when both sides hold a dict, otherwise `v`. -/
def mergeStepVal (d : List (String × Json)) (k : String) (v : Json) : Json :=
  match v, lookupKey d k with
  | Json.obj o, some (Json.obj dd) => Json.obj (merge_config dd o)
  | _, _ => v

/-- Spec-side notion for "sibling keys not mentioned in the override", at any
nesting depth, for the defaults path `k :: p`: either the override lacks the
key `k` at the current level outright (the whole default subtree below it is
untouched), or — past the path's last key, where only absence counts — the
recursive merge descends at `k` because both sides hold dicts there, and the
rest of the path is unmentioned inside those dicts. -/
def pathUnmentioned : List (String × Json) → List (String × Json) → String →
    List String → Bool
  | _, o, k, [] => !((keysOf o).contains k)
  | d, o, k, k' :: p =>
      !((keysOf o).contains k) ||
        (match lookupKey o k, lookupKey d k with
         | some (Json.obj m), some (Json.obj dm) => pathUnmentioned dm m k' p
         | _, _ => false)

/-! ## OTP extraction (test12.py lines 240-246, regex from line 57)

`re.search(r"\b(\d{4,8})\b", body)` is embedded as a left-to-right scan:
a match starts at the leftmost position that is at a word boundary (start of
string or after a non-word character), consists of the maximal digit run at
that position provided its length lies in 4..8, and must be followed by the
end of the string or a non-word character (otherwise `\b` fails for every
greedy/backtracked length, since the following character is then a digit or
word character).  The captured group is the digit run.  ASCII semantics of
`\d`/`\w` are modelled; the bodies the program meets are ASCII. -/

def isDigitChar (c : Char) : Bool := '0' ≤ c && c ≤ '9'

def isWordChar (c : Char) : Bool := c.isAlphanum || c == '_'

/-- Scan for the leftmost `\b(\d{4,8})\b` match; `prev` is the character just
before the current position (`none` at the start of the body). -/
def otpSearchAux : Option Char → List Char → Option (List Char)
  | _, [] => none
  | prev, c :: rest =>
    let boundaryOk := match prev with
      | none => true
      | some p => !isWordChar p
    if boundaryOk && isDigitChar c then
      let run := List.takeWhile isDigitChar (c :: rest)
      let after := List.dropWhile isDigitChar (c :: rest)
      if 4 ≤ run.length && run.length ≤ 8 &&
          (match after with | [] => true | a :: _ => !isWordChar a) then
        some run
      else otpSearchAux (some c) rest
    else otpSearchAux (some c) rest

/-- Embedding of lines 240-242: the OTP is the first captured group of the
single regex search over the message body, or `none` when there is no
match. -/
def extract_otp (body : String) : Option String :=
  (otpSearchAux none body.data).map fun r => String.mk r

/-- Spec-side notion used by the claim "a body with no 4-8 digit run":
whether the body contains four consecutive digit characters anywhere (a body
without four consecutive digits is exactly a body whose every digit run is
shorter than four). -/
def hasFourConsecutiveDigits : List Char → Bool
  | c1 :: c2 :: c3 :: c4 :: rest =>
      (isDigitChar c1 && isDigitChar c2 && isDigitChar c3 && isDigitChar c4) ||
        hasFourConsecutiveDigits (c2 :: c3 :: c4 :: rest)
  | _ => false

/-! ## Report generation (test12.py lines 329-343)

`generate_report` renders the global `REPORT` list of `(description, status)`
pairs; the embedding takes that list as an argument and returns the HTML text
that the Python function writes to the report file. -/

/-- Line 338: `status_color = "green" if status == "PASS" else "red"`. -/
def status_color (status : String) : String :=
  if status = "PASS" then "green" else "red"

/-- Line 339: the f-string for one table row. -/
def report_row (desc status : String) : String :=
  "<tr><td>" ++ desc ++ "</td><td style=\x27color:" ++ status_color status ++
    "\x27>" ++ status ++ "</td></tr>"

/-- Lines 332-336: the fixed HTML prologue, including the header table row. -/
def report_header : String :=
  "<html><head><meta charset=\x27utf-8\x27><title>Automation Report</title>" ++
    "<style>table\x7bborder-collapse:collapse;width:100%;\x7dth,td\x7bborder:1px solid #ddd;padding:8px;text-align:left;\x7dth\x7bbackground:#f2f2f2;\x7d</style>" ++
    "</head><body><h2>HP Account Automation Report</h2><table><tr><th>Step</th><th>Status</th></tr>"

/-- Line 340: the fixed HTML epilogue. -/
def report_footer : String := "</table></body></html>"

/-- Lines 332-340: the report text is the prologue, one row appended per
logged step in order (the Python `for` loop with `html +=`), then the
epilogue. -/
def generate_report_html (report : List (String × String)) : String :=
  (report.foldl (fun html step => html ++ report_row step.1 step.2) report_header)
    ++ report_footer

/-- The concatenation of the data rows, one per step in log order; used to
state what `generate_report_html` produces. -/
def rows_html : List (String × String) → String
  | [] => ""
  | step :: rest => report_row step.1 step.2 ++ rows_html rest

/-! ## Random mailbox generation (test12.py lines 107-111) -/

/-- The constant `string.ascii_lowercase`. -/
def ascii_lowercase : List Char := "abcdefghijklmnopqrstuvwxyz".data

/-- Model of `random.choices(population, k=n)`: the random generator is modelled as an
oracle `rng` giving the sampled index for each draw (reduced modulo the
population size, so any oracle denotes a valid sample). -/
def random_choices (population : List Char) (n : Nat) (rng : Nat → Nat) : List Char :=
  (List.range n).map fun i => population.getD (rng i % population.length) 'a'

/-- The `CONFIG["random_data"]` values consulted for defaulted arguments
(test12.py lines 66-67, at their baked-in defaults). -/
structure RandomDataConfig where
  mailbox_prefix_len : Nat
  mail_domain : String

/-- Embedding of `generate_random_mailbox` (lines 107-111).  The Python
`x or default` idiom treats `None`, `0` and `""` as falsy, which is mirrored
on the two optional arguments. -/
def generate_random_mailbox (cfg : RandomDataConfig) (lenArg : Option Nat)
    (domArg : Option String) (rng : Nat → Nat) : String :=
  let len := match lenArg with
    | none => cfg.mailbox_prefix_len
    | some n => if n = 0 then cfg.mailbox_prefix_len else n
  let dom := match domArg with
    | none => cfg.mail_domain
    | some s => if s.isEmpty then cfg.mail_domain else s
  String.mk (random_choices ascii_lowercase len rng) ++ "test@" ++ dom

/-! ## OTP retrieval from Mailsac (test12.py lines 190-253)

The Selenium session is modelled by an environment of oracle outcomes: each
element-location step either succeeds or raises with a message.  Wall-clock
time in the polling loop (lines 219-233) is modelled by counting one loop
iteration per elapsed `poll_interval`: iteration `i` starts at elapsed time
`i * poll_interval`, so the number of iterations run when no row ever
appears is `⌈max_wait / poll_interval⌉`. -/

structure MailsacEnv where
  /-- Outcome of `webdriver.Chrome(...)` (line 203 via `_create_selenium_driver`):
  `some e` when driver creation raises with message `e`. -/
  createDriverErr : Option String
  /-- Outcome of `driver.get(mailsac_url)` (line 206). -/
  navigateErr : Option String
  /-- locating the mailbox input field (lines 209-211). -/
  mailboxFieldErr : Option String
  /-- locating the clickable check-mail button (line 215). -/
  checkBtnErr : Option String
  /-- the polling iteration at which the first inbox row is present
  (`none`: the row never appears while the loop runs). -/
  rowAppearsAt : Option Nat
  /-- waiting for the `#emailBody` element (lines 235-238): its text, or the
  timeout exception's message. -/
  bodyResult : Except String String

/-- Number of iterations of `while time.time() - start_time < max_wait` when
every iteration consumes `poll_interval` seconds: `⌈max_wait / poll_interval⌉`. -/
def numIters (maxWait pollInterval : Nat) : Nat :=
  (maxWait + pollInterval - 1) / pollInterval

/-- The polling loop body (lines 220-233), driven by the remaining iteration
fuel.  Returns whether the row was found and clicked, and the steps logged by
the loop, in order. -/
def pollLoop : Option Nat → Nat → Bool × List (String × String)
  | _, 0 => (false, [])
  | some 0, _ + 1 => (true, [("Clicked on first email row.", "PASS")])
  | some (j + 1), fuel + 1 =>
      let r := pollLoop (some j) fuel
      (r.1, ("Refreshed Mailsac inbox.", "INFO") :: r.2)
  | none, fuel + 1 =>
      let r := pollLoop none fuel
      (r.1, ("Refreshed Mailsac inbox.", "INFO") :: r.2)

/-- Result of `fetch_otp_from_mailsac`: the returned pair, the steps logged
during the call, and whether `driver.quit()` was invoked by the function's
exception handler (line 252). -/
structure FetchResult where
  otp : Option String
  driver : Option Unit
  log : List (String × String)
  quitCalled : Bool
deriving DecidableEq

/-- Embedding of `fetch_otp_from_mailsac` (lines 190-253).  Every exception
raised inside the `try` body is caught by the handler at lines 249-253, which
logs a FAIL step with the exception's message, quits the driver if one was
created, and returns `(None, None)`. -/
def fetch_otp_from_mailsac (env : MailsacEnv) (maxWait pollInterval : Nat) :
    FetchResult :=
  match env.createDriverErr with
  | some e =>
      { otp := none, driver := none,
        log := [("Error fetching OTP: " ++ e, "FAIL")], quitCalled := false }
  | none =>
    match env.navigateErr with
    | some e =>
        { otp := none, driver := none,
          log := [("Error fetching OTP: " ++ e, "FAIL")], quitCalled := true }
    | none =>
      match env.mailboxFieldErr with
      | some e =>
          { otp := none, driver := none,
            log := [("Opened Mailsac website.", "PASS"),
                    ("Error fetching OTP: " ++ e, "FAIL")],
            quitCalled := true }
      | none =>
        match env.checkBtnErr with
        | some e =>
            { otp := none, driver := none,
              log := [("Opened Mailsac website.", "PASS"),
                      ("Error fetching OTP: " ++ e, "FAIL")],
              quitCalled := true }
        | none =>
          let pl := pollLoop env.rowAppearsAt (numIters maxWait pollInterval)
          let logPre := [("Opened Mailsac website.", "PASS"),
                         ("Opened Mailsac inbox.", "PASS")] ++ pl.2
          match env.bodyResult with
          | Except.error e =>
              { otp := none, driver := none,
                log := logPre ++ [("Error fetching OTP: " ++ e, "FAIL")],
                quitCalled := true }
          | Except.ok body =>
            match extract_otp body with
            | some otp =>
                { otp := some otp, driver := some (),
                  log := logPre ++ [("Extracted OTP: " ++ otp, "PASS")],
                  quitCalled := false }
            | none =>
                { otp := none, driver := some (),
                  log := logPre ++ [("OTP not found in email.", "FAIL")],
                  quitCalled := false }

/-! ## Main orchestration (test12.py lines 348-382)

Every stage catches its own exceptions internally, so the `try` body of
`main` runs to the end; the `finally` block quits a live driver (its own
exceptions swallowed, lines 377-381) and always calls `generate_report`.
Stage invocations are modelled as an event trace. -/

inductive Ev where
  | launchStage
  | fillFormStage
  | fetchStage
  | verifyStage (otp : String)
  | alertAccepted
  | driverQuit
  | reportGenerated
deriving DecidableEq

structure MainEnv where
  /-- Whether `launch_hp_smart()` returns a desktop object rather than `None`. -/
  launchOk : Bool
  mailsac : MailsacEnv
  maxWait : Nat
  pollInterval : Nat
  /-- whether a browser alert is present in the lines 367-374 block. -/
  alertPresent : Bool

/-- Embedding of `main` (lines 348-382) as the trace of its stages.
`if otp:` and `if driver:` use Python truthiness: a string is truthy iff
non-empty; the driver object is truthy iff it is not `None`. -/
def mainRun (env : MainEnv) : List Ev :=
  let fr := fetch_otp_from_mailsac env.mailsac env.maxWait env.pollInterval
  ([Ev.launchStage]
    ++ (if env.launchOk then [Ev.fillFormStage] else [])
    ++ [Ev.fetchStage]
    ++ (match fr.otp with
        | some s => if s.isEmpty then [] else [Ev.verifyStage s]
        | none => [])
    ++ (if fr.driver.isSome then
          (if env.alertPresent then [Ev.alertAccepted] else [])
        else []))
  ++ ((if fr.driver.isSome then [Ev.driverQuit] else []) ++ [Ev.reportGenerated])

/-! ### Basic lemmas about `lookupKey` and `setKey` -/

theorem lookupKey_setKey_self (d : List (String × Json)) (k : String) (v : Json) :
    lookupKey (setKey d k v) k = some v := by
  induction d with
  | nil => simp [setKey, lookupKey]
  | cons hd tl ih =>
      obtain ⟨k', v'⟩ := hd
      by_cases h : k' = k <;> simp [setKey, lookupKey, h, ih]

theorem lookupKey_setKey_ne (d : List (String × Json)) (k k' : String) (v : Json)
    (h : k' ≠ k) : lookupKey (setKey d k v) k' = lookupKey d k' := by
  have h' : ¬k = k' := fun e => h e.symm
  induction d with
  | nil => simp [setKey, lookupKey, h']
  | cons hd tl ih =>
      obtain ⟨k₁, v₁⟩ := hd
      by_cases h1 : k₁ = k
      · subst h1
        simp [setKey, lookupKey, h']
      · simp [setKey, lookupKey, h1, ih]

theorem setKey_lookup_eq (d : List (String × Json)) (k : String) (v : Json)
    (h : lookupKey d k = some v) : setKey d k v = d := by
  induction d with
  | nil => simp [lookupKey] at h
  | cons hd tl ih =>
      obtain ⟨k₁, v₁⟩ := hd
      by_cases h1 : k₁ = k
      · subst h1
        simp [lookupKey] at h
        simp [setKey, h]
      · simp [lookupKey, h1] at h
        simp [setKey, h1, ih h]

theorem setKey_cons_ne (d : List (String × Json)) (k₀ k : String) (v₀ v : Json)
    (h : k₀ ≠ k) : setKey ((k₀, v₀) :: d) k v = (k₀, v₀) :: setKey d k v := by
  simp [setKey, h]

theorem lookupKey_cons_ne (d : List (String × Json)) (k₀ k : String) (v₀ : Json)
    (h : k₀ ≠ k) : lookupKey ((k₀, v₀) :: d) k = lookupKey d k := by
  simp [lookupKey, h]

/-! ### Equation lemmas for `merge_config` -/

theorem merge_config_nil (d : List (String × Json)) : merge_config d [] = d := by
  simp [merge_config]

theorem merge_config_cons_obj_obj (d : List (String × Json)) (k : String)
    (o dd rest : List (String × Json)) (h : lookupKey d k = some (Json.obj dd)) :
    merge_config d ((k, Json.obj o) :: rest) =
      merge_config (setKey d k (Json.obj (merge_config dd o))) rest := by
  simp [merge_config, h]

theorem merge_config_cons_obj_other (d : List (String × Json)) (k : String)
    (o rest : List (String × Json))
    (h : ∀ dd, lookupKey d k ≠ some (Json.obj dd)) :
    merge_config d ((k, Json.obj o) :: rest) =
      merge_config (setKey d k (Json.obj o)) rest := by
  rw [merge_config]
  rcases hl : lookupKey d k with _ | w
  · rfl
  · cases w <;> first
      | rfl
      | exact absurd hl (h _)

theorem merge_config_cons_nonobj (d : List (String × Json)) (k : String) (v : Json)
    (rest : List (String × Json)) (h : v.isObj = false) :
    merge_config d ((k, v) :: rest) = merge_config (setKey d k v) rest := by
  cases v <;> simp_all [Json.isObj, merge_config]

/-- One step of `merge_config` is a `setKey` of the step value. -/
theorem merge_config_cons_step (d : List (String × Json)) (k : String) (v : Json)
    (rest : List (String × Json)) :
    merge_config d ((k, v) :: rest) =
      merge_config (setKey d k (mergeStepVal d k v)) rest := by
  rcases v with s | n | b | _ | es | o
  case obj =>
    rcases h : lookupKey d k with _ | w
    · simp [merge_config, mergeStepVal, h]
    · cases w <;> simp [merge_config, mergeStepVal, h]
  all_goals simp [merge_config, mergeStepVal]

/-- The step value only depends on the defaults through the looked-up key. -/
theorem mergeStepVal_congr {d d' : List (String × Json)} {k : String} (v : Json)
    (h : lookupKey d k = lookupKey d' k) :
    mergeStepVal d k v = mergeStepVal d' k v := by
  rcases v with s | n | b | _ | es | o <;> simp only [mergeStepVal, h]

/-- Keys not mentioned by the overrides keep their exact default binding. -/
theorem merge_lookup_notMem (o : List (String × Json)) :
    ∀ (d : List (String × Json)) (k : String), k ∉ keysOf o →
      lookupKey (merge_config d o) k = lookupKey d k := by
  induction o with
  | nil => intro d k _; rw [merge_config_nil]
  | cons hd rest ih =>
      intro d k hk
      obtain ⟨k₁, v₁⟩ := hd
      have hne : k ≠ k₁ := by
        intro e; exact hk (by simp [keysOf, e])
      have hk' : k ∉ keysOf rest := by
        intro hm; exact hk (by simp [keysOf] at hm ⊢; exact Or.inr hm)
      rw [merge_config_cons_step, ih _ k hk', lookupKey_setKey_ne _ _ _ _ hne]

/-- A head binding whose key the overrides never mention commutes out of the
merge. -/
theorem merge_cons_notMem (o : List (String × Json)) :
    ∀ (d : List (String × Json)) (k : String) (v : Json), k ∉ keysOf o →
      merge_config ((k, v) :: d) o = (k, v) :: merge_config d o := by
  induction o with
  | nil => intro d k v _; rw [merge_config_nil, merge_config_nil]
  | cons hd rest ih =>
      intro d k v hk
      obtain ⟨k₁, v₁⟩ := hd
      have hne : k ≠ k₁ := by
        intro e; exact hk (by simp [keysOf, e])
      have hne' : k₁ ≠ k := fun e => hne e.symm
      have hk' : k ∉ keysOf rest := by
        intro hm; exact hk (by simp [keysOf] at hm ⊢; exact Or.inr hm)
      have hlk : lookupKey ((k, v) :: d) k₁ = lookupKey d k₁ :=
        lookupKey_cons_ne d k k₁ v hne
      rw [merge_config_cons_step, merge_config_cons_step,
          mergeStepVal_congr v₁ hlk, setKey_cons_ne _ _ _ _ _ hne, ih _ _ _ hk']

theorem notMem_of_contains_eq_false {l : List String} {k : String}
    (h : l.contains k = false) : k ∉ l := by
  simpa using h

/-- Destructuring of `listWF` on a cons cell. -/
theorem listWF_cons {k : String} {v : Json} {rest : List (String × Json)}
    (h : listWF ((k, v) :: rest) = true) :
    k ∉ keysOf rest ∧ jsonWF v = true ∧ listWF rest = true := by
  rw [listWF] at h
  simp only [Bool.and_eq_true, Bool.not_eq_true'] at h
  exact ⟨notMem_of_contains_eq_false h.1.1, h.1.2, h.2⟩

theorem merge_self_aux :
    ∀ (n : Nat) (x : List (String × Json)), sizeOf x ≤ n → listWF x = true →
      merge_config x x = x := by
  intro n
  induction n with
  | zero =>
      intro x hs _
      cases x with
      | nil => exact merge_config_nil []
      | cons hd tl =>
          exfalso
          simp only [List.cons.sizeOf_spec] at hs
          omega
  | succ n ih =>
      intro x hs hwf
      cases x with
      | nil => exact merge_config_nil []
      | cons hd tl =>
          obtain ⟨k, v⟩ := hd
          obtain ⟨hknotin, hv, htl⟩ := listWF_cons hwf
          have hlk : lookupKey ((k, v) :: tl) k = some v := by simp [lookupKey]
          have hsizes : sizeOf tl ≤ n ∧ sizeOf v ≤ n := by
            simp only [List.cons.sizeOf_spec, Prod.mk.sizeOf_spec] at hs
            omega
          have hstep : mergeStepVal ((k, v) :: tl) k v = v := by
            rcases v with s | m | b | _ | es | o
            case obj =>
              have ho : listWF o = true := by simpa [jsonWF] using hv
              have hso : sizeOf o ≤ n := by
                have := hsizes.2
                simp only [Json.obj.sizeOf_spec] at this
                omega
              simp [mergeStepVal, hlk, ih o hso ho]
            all_goals simp [mergeStepVal, hlk]
          rw [merge_config_cons_step, hstep, setKey_lookup_eq _ _ _ hlk,
              merge_cons_notMem tl _ k v hknotin, ih tl hsizes.1 htl]

/-- Self-merge is the identity on any well-formed object list. -/
theorem merge_config_self (x : List (String × Json)) (h : listWF x = true) :
    merge_config x x = x :=
  merge_self_aux (sizeOf x) x le_rfl h

theorem merge_idem_aux :
    ∀ (n : Nat) (o : List (String × Json)), sizeOf o ≤ n → listWF o = true →
      ∀ d : List (String × Json),
        merge_config (merge_config d o) o = merge_config d o := by
  intro n
  induction n with
  | zero =>
      intro o hs _ d
      cases o with
      | nil => rw [merge_config_nil, merge_config_nil]
      | cons hd tl =>
          exfalso
          simp only [List.cons.sizeOf_spec] at hs
          omega
  | succ n ih =>
      intro o hs hwf d
      cases o with
      | nil => rw [merge_config_nil, merge_config_nil]
      | cons hd tl =>
          obtain ⟨k, v⟩ := hd
          obtain ⟨hknotin, hv, htl⟩ := listWF_cons hwf
          have hsizes : sizeOf tl ≤ n ∧ sizeOf v ≤ n := by
            simp only [List.cons.sizeOf_spec, Prod.mk.sizeOf_spec] at hs
            omega
          -- the defaults after the first pass over the head entry
          set d1 := setKey d k (mergeStepVal d k v) with hd1
          -- the defaults after the whole first pass
          set d2 := merge_config d1 tl with hd2
          have hfirst : merge_config d ((k, v) :: tl) = d2 := by
            rw [merge_config_cons_step]
          have hlk2 : lookupKey d2 k = some (mergeStepVal d k v) := by
            rw [hd2, merge_lookup_notMem tl d1 k hknotin, hd1, lookupKey_setKey_self]
          have hstep2 : mergeStepVal d2 k v = mergeStepVal d k v := by
            rcases v with s | m | b | _ | es | o'
            case obj =>
              have ho' : listWF o' = true := by simpa [jsonWF] using hv
              have hso' : sizeOf o' ≤ n := by
                have := hsizes.2
                simp only [Json.obj.sizeOf_spec] at this
                omega
              rcases hdk : lookupKey d k with _ | w
              · have hsv : mergeStepVal d k (Json.obj o') = Json.obj o' := by
                  simp [mergeStepVal, hdk]
                rw [hsv] at hlk2
                simp [mergeStepVal, hlk2, hdk, merge_config_self o' ho']
              · rcases w with s' | m' | b' | _ | es' | dd
                case obj =>
                  have hsv : mergeStepVal d k (Json.obj o') =
                      Json.obj (merge_config dd o') := by
                    simp [mergeStepVal, hdk]
                  rw [hsv] at hlk2
                  simp [mergeStepVal, hlk2, hdk, ih o' hso' ho' dd]
                all_goals
                  (have hsv : mergeStepVal d k (Json.obj o') = Json.obj o' := by
                     simp [mergeStepVal, hdk]
                   rw [hsv] at hlk2
                   simp [mergeStepVal, hlk2, hdk, merge_config_self o' ho'])
            all_goals simp [mergeStepVal]
          rw [hfirst, merge_config_cons_step, hstep2,
              setKey_lookup_eq _ _ _ (by rw [hlk2]), hd2, ih tl hsizes.1 htl d1]

/-- The step value of a non-dict override value is the value itself. -/
theorem mergeStepVal_nonobj (d : List (String × Json)) (k : String) {v : Json}
    (h : v.isObj = false) : mergeStepVal d k v = v := by
  cases v <;> simp_all [Json.isObj, mergeStepVal]

theorem lookupPath_cons_ne (tl : List (String × Json)) (k₁ k : String) (v₁ : Json)
    (p : List String) (h : k₁ ≠ k) :
    lookupPath ((k₁, v₁) :: tl) k p = lookupPath tl k p := by
  cases p <;> simp [lookupPath, lookupKey_cons_ne _ _ _ _ h]

/-- After a merge, the binding of an overridden key is the step value. -/
theorem merge_lookup_head (d tl : List (String × Json)) (k : String) (v : Json)
    (hknotin : k ∉ keysOf tl) :
    lookupKey (merge_config d ((k, v) :: tl)) k = some (mergeStepVal d k v) := by
  rw [merge_config_cons_step, merge_lookup_notMem tl _ k hknotin, lookupKey_setKey_self]

theorem override_wins_aux :
    ∀ (n : Nat) (o : List (String × Json)), sizeOf o ≤ n → listWF o = true →
      ∀ (d : List (String × Json)) (k : String) (p : List String) (v : Json),
        lookupPath o k p = some v → v.isObj = false →
        lookupPath (merge_config d o) k p = some v := by
  intro n
  induction n with
  | zero =>
      intro o hs _ d k p v h _
      cases o with
      | nil => cases p <;> simp [lookupPath, lookupKey] at h
      | cons hd tl =>
          exfalso
          simp only [List.cons.sizeOf_spec] at hs
          omega
  | succ n ih =>
      intro o hs hwf d k p v h hvno
      cases o with
      | nil => cases p <;> simp [lookupPath, lookupKey] at h
      | cons hd tl =>
          obtain ⟨k₁, v₁⟩ := hd
          obtain ⟨hknotin, hv, htl⟩ := listWF_cons hwf
          have hsizes : sizeOf tl ≤ n ∧ sizeOf v₁ ≤ n := by
            simp only [List.cons.sizeOf_spec, Prod.mk.sizeOf_spec] at hs
            omega
          by_cases hkk : k₁ = k
          · subst hkk
            have hlk : lookupKey (merge_config d ((k₁, v₁) :: tl)) k₁ =
                some (mergeStepVal d k₁ v₁) := merge_lookup_head d tl k₁ v₁ hknotin
            cases p with
            | nil =>
                have hv1 : v₁ = v := by simpa [lookupPath, lookupKey] using h
                subst hv1
                simp [lookupPath, hlk, mergeStepVal_nonobj d k₁ hvno]
            | cons k' p' =>
                cases v₁ with
                | str s => simp [lookupPath, lookupKey] at h
                | num m' => simp [lookupPath, lookupKey] at h
                | bool b => simp [lookupPath, lookupKey] at h
                | null => simp [lookupPath, lookupKey] at h
                | arr es => simp [lookupPath, lookupKey] at h
                | obj m =>
                  have hm : lookupPath m k' p' = some v := by
                    simpa [lookupPath, lookupKey] using h
                  have hom : listWF m = true := by simpa [jsonWF] using hv
                  have hsm : sizeOf m ≤ n := by
                    have := hsizes.2
                    simp only [Json.obj.sizeOf_spec] at this
                    omega
                  rcases hdk : lookupKey d k₁ with _ | w
                  · have : mergeStepVal d k₁ (Json.obj m) = Json.obj m := by
                      simp [mergeStepVal, hdk]
                    rw [this] at hlk
                    simp [lookupPath, hlk, hm]
                  · rcases w with s' | n' | b' | _ | es' | dd
                    rotate_right
                    · have hsv : mergeStepVal d k₁ (Json.obj m) =
                          Json.obj (merge_config dd m) := by
                        simp [mergeStepVal, hdk]
                      rw [hsv] at hlk
                      simp only [lookupPath, hlk]
                      exact ih m hsm hom dd k' p' v hm hvno
                    all_goals
                      (have hsv : mergeStepVal d k₁ (Json.obj m) = Json.obj m := by
                         simp [mergeStepVal, hdk]
                       rw [hsv] at hlk
                       simp [lookupPath, hlk, hm])
          · have hne : k₁ ≠ k := hkk
            rw [lookupPath_cons_ne tl k₁ k v₁ p hne] at h
            rw [merge_config_cons_step]
            exact ih tl hsizes.1 htl _ k p v h hvno

/-- C5: merging an override document into defaults twice yields the same
configuration as merging it once — `merge_config` is idempotent in the
override.  The override is assumed well-formed (`listWF`), which every
document produced by `json.load` is, since a Python dict cannot carry a
duplicate key; no assumption at all is needed on the defaults. -/
theorem merge_config_idempotent (d o : List (String × Json))
    (ho : listWF o = true) :
    merge_config (merge_config d o) o = merge_config d o :=
  merge_idem_aux (sizeOf o) o le_rfl ho d

theorem merge_config_idempotent_witness :
    listWF [("a", Json.num 1), ("b", Json.obj [("c", Json.num 2)])] = true ∧
    merge_config
        (merge_config [("a", Json.num 0), ("x", Json.str "keep")]
          [("a", Json.num 1), ("b", Json.obj [("c", Json.num 2)])])
        [("a", Json.num 1), ("b", Json.obj [("c", Json.num 2)])] =
      merge_config [("a", Json.num 0), ("x", Json.str "keep")]
        [("a", Json.num 1), ("b", Json.obj [("c", Json.num 2)])] :=
  ⟨by decide, merge_config_idempotent _ _ (by decide)⟩

/-- A looked-up value of a well-formed object list is well-formed. -/
theorem listWF_lookup (o : List (String × Json)) :
    ∀ (k : String) (v : Json), listWF o = true → lookupKey o k = some v →
      jsonWF v = true := by
  induction o with
  | nil => intro k v _ h; simp [lookupKey] at h
  | cons hd tl ih =>
      intro k v ho h
      obtain ⟨k₁, v₁⟩ := hd
      obtain ⟨_, hv, htl⟩ := listWF_cons ho
      by_cases hkk : k₁ = k
      · subst hkk
        have hv1 : v₁ = v := by simpa [lookupKey] using h
        subst hv1
        exact hv
      · exact ih k v htl (by simpa [lookupKey, hkk] using h)

/-- After a merge with a well-formed override, a key the override mentions is
bound to the step value that the merge computed for it. -/
theorem merge_lookup_mem (o : List (String × Json)) :
    ∀ (d : List (String × Json)) (k : String) (v : Json),
      listWF o = true → lookupKey o k = some v →
      lookupKey (merge_config d o) k = some (mergeStepVal d k v) := by
  induction o with
  | nil => intro d k v _ h; simp [lookupKey] at h
  | cons hd tl ih =>
      intro d k v ho h
      obtain ⟨k₁, v₁⟩ := hd
      obtain ⟨hknotin, _, htl⟩ := listWF_cons ho
      by_cases hkk : k₁ = k
      · subst hkk
        have hv1 : v₁ = v := by simpa [lookupKey] using h
        subst hv1
        exact merge_lookup_head d tl k₁ v₁ hknotin
      · have hne : k ≠ k₁ := fun e => hkk e.symm
        have h' : lookupKey tl k = some v := by simpa [lookupKey, hkk] using h
        rw [merge_config_cons_step, ih _ k v htl h']
        congr 1
        exact mergeStepVal_congr v (lookupKey_setKey_ne d k₁ k _ hne)

theorem pathUnmentioned_cons_elim {d o : List (String × Json)} {k k' : String}
    {p : List String} (h : pathUnmentioned d o k (k' :: p) = true) :
    k ∉ keysOf o ∨
      ∃ m dm, lookupKey o k = some (Json.obj m) ∧
        lookupKey d k = some (Json.obj dm) ∧ pathUnmentioned dm m k' p = true := by
  simp only [pathUnmentioned, Bool.or_eq_true, Bool.not_eq_true'] at h
  rcases h with h | h
  · exact Or.inl (notMem_of_contains_eq_false h)
  · right
    split at h
    · next m dm hoo hdd => exact ⟨m, dm, hoo, hdd, h⟩
    · simp at h

/-- Default bindings along any path the override leaves unmentioned — at any
nesting depth — survive the merge unchanged. -/
theorem merge_preserves_unmentioned (p : List String) :
    ∀ (o : List (String × Json)), listWF o = true →
      ∀ (d : List (String × Json)) (k : String),
        pathUnmentioned d o k p = true →
        lookupPath (merge_config d o) k p = lookupPath d k p := by
  induction p with
  | nil =>
      intro o ho d k h
      have hk : k ∉ keysOf o := by
        simp only [pathUnmentioned, Bool.not_eq_true'] at h
        exact notMem_of_contains_eq_false h
      simp only [lookupPath]
      exact merge_lookup_notMem o d k hk
  | cons k' p' ih =>
      intro o ho d k h
      rcases pathUnmentioned_cons_elim h with hk | ⟨m, dm, hoo, hdd, hun⟩
      · have hl : lookupKey (merge_config d o) k = lookupKey d k :=
          merge_lookup_notMem o d k hk
        simp only [lookupPath, hl]
      · have hl : lookupKey (merge_config d o) k =
            some (Json.obj (merge_config dm m)) := by
          rw [merge_lookup_mem o d k (Json.obj m) ho hoo]
          simp [mergeStepVal, hdd]
        have hm : listWF m = true := by
          have := listWF_lookup o k (Json.obj m) ho hoo
          simpa [jsonWF] using this
        simp only [lookupPath, hl, hdd]
        exact ih m hm dm k' hun

/-- C6: after `merge_config`, every key path of the override that ends in a
non-dict (scalar/leaf) value — at any nesting depth — carries the override's
value in the result; and every default binding along a path the override
leaves unmentioned — a sibling key at any nesting depth, including keys
inside nested dicts the merge descends into, and whole subtrees under keys
the override lacks — keeps its exact default value. -/
theorem merge_config_override_wins (d o : List (String × Json))
    (ho : listWF o = true) :
    (∀ (k : String) (p : List String) (v : Json),
        lookupPath o k p = some v → v.isObj = false →
        lookupPath (merge_config d o) k p = some v)
    ∧ ∀ (k : String) (p : List String), pathUnmentioned d o k p = true →
        lookupPath (merge_config d o) k p = lookupPath d k p :=
  ⟨fun k p v h hv => override_wins_aux (sizeOf o) o le_rfl ho d k p v h hv,
   fun k p hk => merge_preserves_unmentioned p o ho d k hk⟩

theorem merge_config_override_wins_witness :
    listWF [("a", Json.obj [("x", Json.num 9)])] = true ∧
    lookupPath [("a", Json.obj [("x", Json.num 9)])] "a" ["x"] =
      some (Json.num 9) ∧
    (Json.num 9).isObj = false ∧
    lookupPath
        (merge_config [("a", Json.obj [("x", Json.num 1), ("y", Json.num 2)]), ("z", Json.num 5)]
          [("a", Json.obj [("x", Json.num 9)])]) "a" ["x"] = some (Json.num 9) ∧
    pathUnmentioned
        [("a", Json.obj [("x", Json.num 1), ("y", Json.num 2)]), ("z", Json.num 5)]
        [("a", Json.obj [("x", Json.num 9)])] "a" ["y"] = true ∧
    lookupPath
        (merge_config [("a", Json.obj [("x", Json.num 1), ("y", Json.num 2)]), ("z", Json.num 5)]
          [("a", Json.obj [("x", Json.num 9)])]) "a" ["y"] =
      lookupPath [("a", Json.obj [("x", Json.num 1), ("y", Json.num 2)]), ("z", Json.num 5)]
        "a" ["y"] ∧
    lookupPath [("a", Json.obj [("x", Json.num 1), ("y", Json.num 2)]), ("z", Json.num 5)]
        "a" ["y"] = some (Json.num 2) ∧
    pathUnmentioned
        [("a", Json.obj [("x", Json.num 1), ("y", Json.num 2)]), ("z", Json.num 5)]
        [("a", Json.obj [("x", Json.num 9)])] "z" [] = true ∧
    lookupPath
        (merge_config [("a", Json.obj [("x", Json.num 1), ("y", Json.num 2)]), ("z", Json.num 5)]
          [("a", Json.obj [("x", Json.num 9)])]) "z" [] =
      lookupPath [("a", Json.obj [("x", Json.num 1), ("y", Json.num 2)]), ("z", Json.num 5)]
        "z" [] :=
  ⟨by decide, rfl, rfl,
   (merge_config_override_wins _ _ (by decide)).1 "a" ["x"] (Json.num 9)
     rfl rfl,
   by decide,
   (merge_config_override_wins _ _ (by decide)).2 "a" ["y"] (by decide),
   rfl,
   by decide,
   (merge_config_override_wins _ _ (by decide)).2 "z" [] (by decide)⟩

/-! ### Lemmas about the OTP extractor -/

theorem hasFour_tail {c : Char} {rest : List Char}
    (h : hasFourConsecutiveDigits (c :: rest) = false) :
    hasFourConsecutiveDigits rest = false := by
  match rest with
  | [] => rfl
  | [c2] => rfl
  | [c2, c3] => rfl
  | c2 :: c3 :: c4 :: t =>
      rw [hasFourConsecutiveDigits] at h
      simp only [Bool.or_eq_false_iff] at h
      exact h.2

theorem hasFour_of_takeWhile_ge {s : List Char}
    (h : 4 ≤ (List.takeWhile isDigitChar s).length) :
    hasFourConsecutiveDigits s = true := by
  match s with
  | [] => simp [List.takeWhile] at h
  | [c1] =>
      by_cases h1 : isDigitChar c1 <;> simp [List.takeWhile, h1] at h
  | [c1, c2] =>
      by_cases h1 : isDigitChar c1 <;> by_cases h2 : isDigitChar c2 <;>
        simp [List.takeWhile, h1, h2] at h
  | [c1, c2, c3] =>
      by_cases h1 : isDigitChar c1 <;> by_cases h2 : isDigitChar c2 <;>
        by_cases h3 : isDigitChar c3 <;> simp [List.takeWhile, h1, h2, h3] at h
  | c1 :: c2 :: c3 :: c4 :: t =>
      by_cases h1 : isDigitChar c1
      · by_cases h2 : isDigitChar c2
        · by_cases h3 : isDigitChar c3
          · by_cases h4 : isDigitChar c4
            · simp [hasFourConsecutiveDigits, h1, h2, h3, h4]
            · simp [List.takeWhile, h1, h2, h3, h4] at h
          · simp [List.takeWhile, h1, h2, h3] at h
        · simp [List.takeWhile, h1, h2] at h
      · simp [List.takeWhile, h1] at h

/-- When the body has no four consecutive digits, the scan finds no match,
whatever the preceding-character context is. -/
theorem otpSearchAux_eq_none (s : List Char) :
    ∀ prev : Option Char, hasFourConsecutiveDigits s = false →
      otpSearchAux prev s = none := by
  induction s with
  | nil => intro prev _; rfl
  | cons c rest ih =>
      intro prev h
      have hrest := hasFour_tail h
      have hlt : ¬4 ≤ (List.takeWhile isDigitChar (c :: rest)).length := by
        intro hge
        rw [hasFour_of_takeWhile_ge hge] at h
        cases h
      simp only [otpSearchAux]
      split
      · split
        · next hcond =>
            exfalso
            simp only [Bool.and_eq_true, decide_eq_true_eq] at hcond
            exact hlt hcond.1.1
        · exact ih (some c) hrest
      · exact ih (some c) hrest

/-- Any match returned by the scan is at least four characters long (the
`{4,8}` lower bound). -/
theorem otpSearchAux_length (s : List Char) :
    ∀ (prev : Option Char) (r : List Char), otpSearchAux prev s = some r →
      4 ≤ r.length := by
  induction s with
  | nil => intro prev r h; cases h
  | cons c rest ih =>
      intro prev r h
      simp only [otpSearchAux] at h
      split at h
      · split at h
        · next hcond =>
            simp only [Bool.and_eq_true, decide_eq_true_eq] at hcond
            cases h
            exact hcond.1.1
        · exact ih (some c) r h
      · exact ih (some c) r h

/-- A returned OTP string is non-empty (it has at least four digits), hence
truthy in Python. -/
theorem extract_otp_ne_empty {body s : String} (h : extract_otp body = some s) :
    s.isEmpty = false := by
  simp only [extract_otp, Option.map_eq_some'] at h
  obtain ⟨r, hr, hs⟩ := h
  have hlen := otpSearchAux_length body.data none r hr
  subst hs
  rw [Bool.eq_false_iff]
  intro he
  have : String.mk r = "" := (String.isEmpty_iff _).mp he
  have hdata : r = [] := congrArg String.data this
  rw [hdata] at hlen
  simp at hlen

/-- C4 counterexample: the body `"1234 Your code is 48213"` contains the
substring `"Your code is 48213"`, yet the extractor returns the earlier run
`"1234"`, not `"48213"` — the regex takes the first 4-8 digit run of the
whole body, so the claim as universally stated over all bodies containing
that substring is false. -/
theorem extract_otp_substring_counterexample :
    (∃ pre post : String,
        "1234 Your code is 48213" = pre ++ "Your code is 48213" ++ post) ∧
    extract_otp "1234 Your code is 48213" = some "1234" ∧
    some "1234" ≠ some "48213" :=
  ⟨⟨"1234 ", "", by decide⟩, by decide, by decide⟩

/-- C4 (amended): the extractor performs one regex search for a
word-delimited 4-8 digit run and returns the captured group of the first
such run: on the body `"Your code is 48213"` it returns `"48213"` (for a
body containing `"Your code is 48213"` it returns the body's first 4-8 digit
run, which may differ); and on every body with no 4-8 digit run — no four
consecutive digit characters — it returns `none`. -/
theorem extract_otp_amended :
    extract_otp "Your code is 48213" = some "48213" ∧
    ∀ body : String, hasFourConsecutiveDigits body.data = false →
      extract_otp body = none :=
  ⟨by decide, fun body h => by
    simp [extract_otp, otpSearchAux_eq_none body.data none h]⟩

theorem extract_otp_amended_witness :
    extract_otp "Your code is 48213" = some "48213" ∧
    hasFourConsecutiveDigits "no digits here".data = false ∧
    extract_otp "no digits here" = none :=
  ⟨extract_otp_amended.1, by decide,
   extract_otp_amended.2 "no digits here" (by decide)⟩

/-! ### Lemmas about the report generator -/

theorem generate_report_foldl (l : List (String × String)) :
    ∀ init : String,
      l.foldl (fun html step => html ++ report_row step.1 step.2) init =
        init ++ rows_html l := by
  induction l with
  | nil => intro init; rw [List.foldl_nil, rows_html, String.append_empty]
  | cons hd tl ih =>
      intro init
      rw [List.foldl_cons, ih, rows_html, String.append_assoc]

/-- The generated report decomposes as prologue, data rows, epilogue. -/
theorem generate_report_decomp (report : List (String × String)) :
    generate_report_html report =
      report_header ++ rows_html report ++ report_footer := by
  rw [generate_report_html, generate_report_foldl, String.append_assoc]

theorem report_row_split (d s : String) :
    report_row d s =
      "<tr>" ++ (("<td>" ++ d ++ "</td>") ++
        ("<td style=\x27color:" ++ (status_color s ++ ("\x27>" ++ (s ++ "</td></tr>"))))) := by
  have h1 : ("<tr><td>" : String) = "<tr>" ++ "<td>" := by decide
  have h2 : ("</td><td style=\x27color:" : String) =
      "</td>" ++ "<td style=\x27color:" := by decide
  rw [report_row, h1, h2]
  simp only [String.append_assoc]

theorem rows_html_mem (report : List (String × String)) (d s : String) :
    (d, s) ∈ report →
      ∃ a b : String, rows_html report = a ++ (report_row d s ++ b) := by
  induction report with
  | nil => intro h; cases h
  | cons hd tl ih =>
      intro h
      rcases List.mem_cons.mp h with he | hm
      · refine ⟨"", rows_html tl, ?_⟩
        rw [rows_html, ← he, String.empty_append]
      · obtain ⟨a, b, hab⟩ := ih hm
        exact ⟨report_row hd.1 hd.2 ++ a, b, by
          rw [rows_html, hab, String.append_assoc]⟩

/-- C1 counterexample: a report with one INFO step renders that step with
`color:red` — the very color of FAIL rows (`status_color` yields the same
color for INFO and FAIL) — not an orange/neutral color distinct from both. -/
theorem generate_report_info_counterexample :
    generate_report_html [("step", "INFO")] =
      report_header ++
        "<tr><td>step</td><td style=\x27color:red\x27>INFO</td></tr>" ++
        report_footer ∧
    status_color "INFO" = status_color "FAIL" :=
  ⟨by
    have hrow : rows_html [("step", "INFO")] =
        "<tr><td>step</td><td style=\x27color:red\x27>INFO</td></tr>" := by decide
    rw [generate_report_decomp, hrow], rfl⟩

/-- C1 (amended): `generate_report` renders one HTML table row per logged
step, in append order — the report text is the fixed prologue, the
concatenation of one `report_row` per step in log order, then the fixed
epilogue — with PASS rendered green and every non-PASS status, both FAIL and
INFO, rendered red (INFO is not visually distinct from FAIL). -/
theorem generate_report_rows_and_colors (report : List (String × String)) :
    (generate_report_html report =
      report_header ++ rows_html report ++ report_footer)
    ∧ (∀ (d s : String) (rest : List (String × String)),
        rows_html ((d, s) :: rest) = report_row d s ++ rows_html rest)
    ∧ status_color "PASS" = "green"
    ∧ ∀ s : String, s ≠ "PASS" → status_color s = "red" :=
  ⟨generate_report_decomp report, fun _ _ _ => rfl, rfl,
   fun s hs => by simp [status_color, hs]⟩

theorem generate_report_rows_and_colors_witness :
    (generate_report_html [("a", "PASS"), ("b", "INFO")] =
      report_header ++ rows_html [("a", "PASS"), ("b", "INFO")] ++ report_footer)
    ∧ ("INFO" : String) ≠ "PASS"
    ∧ status_color "INFO" = "red" :=
  ⟨(generate_report_rows_and_colors [("a", "PASS"), ("b", "INFO")]).1, by decide,
   (generate_report_rows_and_colors [("a", "PASS"), ("b", "INFO")]).2.2.2 "INFO"
     (by decide)⟩

/-- C10: each logged step's description string is inserted into the HTML
verbatim — with no HTML escaping — inside the row's first cell: the output
contains `<td>` ++ description ++ `</td>` literally, whatever markup the
description holds. -/
theorem generate_report_desc_verbatim (report : List (String × String))
    (d s : String) (h : (d, s) ∈ report) :
    ∃ pre post : String,
      generate_report_html report = pre ++ ("<td>" ++ d ++ "</td>") ++ post := by
  obtain ⟨a, b, hab⟩ := rows_html_mem report d s h
  refine ⟨report_header ++ a ++ "<tr>",
    "<td style=\x27color:" ++ (status_color s ++ ("\x27>" ++ (s ++ "</td></tr>"))) ++
      (b ++ report_footer), ?_⟩
  rw [generate_report_decomp, hab, report_row_split]
  simp only [String.append_assoc]

theorem generate_report_desc_verbatim_witness :
    (("<b>boom</b>", "FAIL") ∈ [("ok", "PASS"), ("<b>boom</b>", "FAIL")]) ∧
    ∃ pre post : String,
      generate_report_html [("ok", "PASS"), ("<b>boom</b>", "FAIL")] =
        pre ++ ("<td>" ++ "<b>boom</b>" ++ "</td>") ++ post :=
  ⟨by decide,
   generate_report_desc_verbatim [("ok", "PASS"), ("<b>boom</b>", "FAIL")]
     "<b>boom</b>" "FAIL" (by decide)⟩

/-! ### Lemmas about the mailbox generator -/

theorem getD_mem {l : List Char} {d : Char} (hd : d ∈ l) (i : Nat) :
    l.getD i d ∈ l := by
  rcases h : l[i]? with _ | a
  · rw [List.getD_eq_getElem?_getD, h]
    exact hd
  · rw [List.getD_eq_getElem?_getD, h]
    exact List.getElem?_mem h

theorem random_choices_length (population : List Char) (n : Nat) (rng : Nat → Nat) :
    (random_choices population n rng).length = n := by
  simp [random_choices]

theorem random_choices_mem {population : List Char} (n : Nat)
    (rng : Nat → Nat) (ha : 'a' ∈ population) :
    ∀ c ∈ random_choices population n rng, c ∈ population := by
  intro c hc
  simp only [random_choices, List.mem_map] at hc
  obtain ⟨i, _, hi⟩ := hc
  rw [← hi]
  exact getD_mem ha _

theorem takeWhile_append_of_all (p : Char → Bool) (a b : List Char)
    (h : ∀ c ∈ a, p c = true) :
    List.takeWhile p (a ++ b) = a ++ List.takeWhile p b := by
  induction a with
  | nil => simp
  | cons x xs ih =>
      have hx : p x = true := h x (by simp)
      simp [List.takeWhile_cons, hx, ih (fun c hc => h c (by simp [hc]))]

/-- C9: for every prefix length L ≥ 1 (a falsy length 0 would fall back to
the configured default instead), the generated address is exactly L lowercase
ASCII letters, then the literal suffix `"test"`, then `"@"` and a domain; in
particular the local-part — everything before the `"@"` — is those L letters
followed by `"test"`. -/
theorem generate_random_mailbox_shape (cfg : RandomDataConfig)
    (domArg : Option String) (rng : Nat → Nat) (L : Nat) (hL : 1 ≤ L) :
    ∃ (pfx : List Char) (dom : String),
      pfx.length = L ∧ (∀ c ∈ pfx, c ∈ ascii_lowercase) ∧
      generate_random_mailbox cfg (some L) domArg rng =
        String.mk pfx ++ "test@" ++ dom ∧
      (generate_random_mailbox cfg (some L) domArg rng).data.takeWhile
        (fun c => c != '@') = pfx ++ "test".data := by
  have h0 : ¬L = 0 := by omega
  have hlow : ∀ c ∈ ascii_lowercase, (c != '@') = true := by decide
  refine ⟨random_choices ascii_lowercase L rng,
    (match domArg with
     | none => cfg.mail_domain
     | some s => if s.isEmpty then cfg.mail_domain else s), ?_, ?_, ?_, ?_⟩
  · exact random_choices_length _ _ _
  · exact @random_choices_mem ascii_lowercase L rng (by decide)
  · simp [generate_random_mailbox, h0]
  · have heq : generate_random_mailbox cfg (some L) domArg rng =
        String.mk (random_choices ascii_lowercase L rng) ++ "test@" ++
          (match domArg with
           | none => cfg.mail_domain
           | some s => if s.isEmpty then cfg.mail_domain else s) := by
      simp [generate_random_mailbox, h0]
    rw [heq, String.data_append, String.data_append]
    rw [List.append_assoc]
    rw [takeWhile_append_of_all (fun c => c != '@')
      (random_choices ascii_lowercase L rng) _
      (fun c hc => hlow c (@random_choices_mem ascii_lowercase L rng (by decide) c hc))]
    rfl

theorem generate_random_mailbox_shape_witness :
    1 ≤ 3 ∧
    ∃ (pfx : List Char) (dom : String),
      pfx.length = 3 ∧ (∀ c ∈ pfx, c ∈ ascii_lowercase) ∧
      generate_random_mailbox ⟨4, "mailsac.com"⟩ (some 3) none (fun i => i) =
        String.mk pfx ++ "test@" ++ dom ∧
      (generate_random_mailbox ⟨4, "mailsac.com"⟩ (some 3) none
          (fun i => i)).data.takeWhile (fun c => c != '@') =
        pfx ++ "test".data :=
  ⟨by decide,
   generate_random_mailbox_shape ⟨4, "mailsac.com"⟩ none (fun i => i) 3 (by decide)⟩

/-! ### Lemmas about the Mailsac fetch -/

/-- When the inbox row never appears, every loop iteration logs exactly one
INFO refresh step and the loop ends without finding a row. -/
theorem pollLoop_none (fuel : Nat) :
    pollLoop none fuel =
      (false, List.replicate fuel ("Refreshed Mailsac inbox.", "INFO")) := by
  induction fuel with
  | zero => rfl
  | succ n ih => simp [pollLoop, ih, List.replicate_succ]

/-- C2: when the polling deadline expires without an inbox row ever being
located, the loop logs only INFO refresh steps — no error is signaled for
the expiry itself — and the function proceeds to wait for the message-body
element regardless; that wait's timeout exception is then caught by the
function's handler, which logs a FAIL step with the exception's message,
quits the browser and returns `(none, none)`. -/
theorem fetch_deadline_fallthrough (env : MailsacEnv)
    (maxWait pollInterval : Nat) (e : String)
    (h1 : env.createDriverErr = none) (h2 : env.navigateErr = none)
    (h3 : env.mailboxFieldErr = none) (h4 : env.checkBtnErr = none)
    (hrow : env.rowAppearsAt = none)
    (hbody : env.bodyResult = Except.error e) :
    fetch_otp_from_mailsac env maxWait pollInterval =
      { otp := none, driver := none,
        log := [("Opened Mailsac website.", "PASS"),
                ("Opened Mailsac inbox.", "PASS")]
          ++ List.replicate (numIters maxWait pollInterval)
               ("Refreshed Mailsac inbox.", "INFO")
          ++ [("Error fetching OTP: " ++ e, "FAIL")],
        quitCalled := true } := by
  simp [fetch_otp_from_mailsac, h1, h2, h3, h4, hrow, hbody, pollLoop_none]

theorem fetch_deadline_fallthrough_witness :
    (MailsacEnv.mk none none none none none
        (Except.error "timeout")).rowAppearsAt = none ∧
    (MailsacEnv.mk none none none none none
        (Except.error "timeout")).bodyResult = Except.error "timeout" ∧
    fetch_otp_from_mailsac
        (MailsacEnv.mk none none none none none (Except.error "timeout")) 6 3 =
      { otp := none, driver := none,
        log := [("Opened Mailsac website.", "PASS"),
                ("Opened Mailsac inbox.", "PASS")]
          ++ List.replicate (numIters 6 3) ("Refreshed Mailsac inbox.", "INFO")
          ++ [("Error fetching OTP: " ++ "timeout", "FAIL")],
        quitCalled := true } :=
  ⟨rfl, rfl,
   fetch_deadline_fallthrough _ 6 3 "timeout" rfl rfl rfl rfl rfl rfl⟩

/-- C3: an exception in the session-opening and mailbox-submission steps —
driver creation, navigation, locating the mailbox field, locating the
check-mail button — is caught, a FAIL step is logged with the exception's
message, the browser session (when one was created; a failure of driver
creation itself leaves no session to quit) is quit, and `(none, none)` is
returned. -/
theorem fetch_setup_failure (env : MailsacEnv) (maxWait pollInterval : Nat)
    (e : String) :
    (env.createDriverErr = some e →
      fetch_otp_from_mailsac env maxWait pollInterval =
        { otp := none, driver := none,
          log := [("Error fetching OTP: " ++ e, "FAIL")], quitCalled := false })
    ∧ (env.createDriverErr = none → env.navigateErr = some e →
      fetch_otp_from_mailsac env maxWait pollInterval =
        { otp := none, driver := none,
          log := [("Error fetching OTP: " ++ e, "FAIL")], quitCalled := true })
    ∧ (env.createDriverErr = none → env.navigateErr = none →
       env.mailboxFieldErr = some e →
      fetch_otp_from_mailsac env maxWait pollInterval =
        { otp := none, driver := none,
          log := [("Opened Mailsac website.", "PASS"),
                  ("Error fetching OTP: " ++ e, "FAIL")],
          quitCalled := true })
    ∧ (env.createDriverErr = none → env.navigateErr = none →
       env.mailboxFieldErr = none → env.checkBtnErr = some e →
      fetch_otp_from_mailsac env maxWait pollInterval =
        { otp := none, driver := none,
          log := [("Opened Mailsac website.", "PASS"),
                  ("Error fetching OTP: " ++ e, "FAIL")],
          quitCalled := true }) := by
  refine ⟨?_, ?_, ?_, ?_⟩ <;> intros <;> simp_all [fetch_otp_from_mailsac]

theorem fetch_setup_failure_witness :
    (MailsacEnv.mk none none (some "no such element") none none
        (Except.ok "")).createDriverErr = none ∧
    (MailsacEnv.mk none none (some "no such element") none none
        (Except.ok "")).navigateErr = none ∧
    (MailsacEnv.mk none none (some "no such element") none none
        (Except.ok "")).mailboxFieldErr = some "no such element" ∧
    fetch_otp_from_mailsac
        (MailsacEnv.mk none none (some "no such element") none none
          (Except.ok "")) 60 3 =
      { otp := none, driver := none,
        log := [("Opened Mailsac website.", "PASS"),
                ("Error fetching OTP: " ++ "no such element", "FAIL")],
        quitCalled := true } :=
  ⟨rfl, rfl, rfl,
   (fetch_setup_failure _ 60 3 "no such element").2.2.1 rfl rfl rfl⟩

/-! ### Lemmas about the orchestration -/

/-- A non-none OTP returned by the fetch is a non-empty string (it has at
least four digits), hence truthy under Python's `if otp:`. -/
theorem fetch_otp_isEmpty_false (env : MailsacEnv) (mW pI : Nat) {s : String}
    (h : (fetch_otp_from_mailsac env mW pI).otp = some s) :
    s.isEmpty = false := by
  simp only [fetch_otp_from_mailsac] at h
  split at h
  · simp at h
  · split at h
    · simp at h
    · split at h
      · simp at h
      · split at h
        · simp at h
        · split at h
          · simp at h
          · split at h
            · next otp hex =>
                simp only at h
                obtain rfl : otp = s := Option.some.inj h
                exact extract_otp_ne_empty hex
            · simp at h

/-- C7: in `main`, the verification-completion stage is invoked iff the OTP
correlator returned a non-none OTP — `if otp:` with a returned OTP that is
always a non-empty digit string — and a missing OTP only short-circuits that
stage: the fetch stage itself is reached on every run, whatever happened to
the earlier desktop stages. -/
theorem main_verify_iff (env : MainEnv) :
    ((∃ s, Ev.verifyStage s ∈ mainRun env) ↔
      (fetch_otp_from_mailsac env.mailsac env.maxWait env.pollInterval).otp ≠ none)
    ∧ Ev.fetchStage ∈ mainRun env := by
  constructor
  · constructor
    · rintro ⟨s, hs⟩ hnone
      by_cases hl : env.launchOk <;>
      by_cases ha : env.alertPresent <;>
      by_cases hd : (fetch_otp_from_mailsac env.mailsac env.maxWait
          env.pollInterval).driver.isSome <;>
        simp [mainRun, hnone, hl, ha, hd] at hs
    · intro hne
      rcases ho : (fetch_otp_from_mailsac env.mailsac env.maxWait
          env.pollInterval).otp with _ | s
      · exact absurd ho hne
      · refine ⟨s, ?_⟩
        have hs : s.isEmpty = false := fetch_otp_isEmpty_false _ _ _ ho
        by_cases hl : env.launchOk <;>
        by_cases ha : env.alertPresent <;>
        by_cases hd : (fetch_otp_from_mailsac env.mailsac env.maxWait
            env.pollInterval).driver.isSome <;>
          simp [mainRun, ho, hs, hl, ha, hd]
  · by_cases hl : env.launchOk <;> simp [mainRun, hl]

/-- C8: every run of `main` — whatever the stage outcomes, including
failure of any stage — ends by invoking report generation: the `finally`
block (whose driver-quit step swallows its own exceptions) always reaches
`generate_report`, so the last event of every trace is the report
generation. -/
theorem main_always_reports (env : MainEnv) :
    (mainRun env).getLast? = some Ev.reportGenerated := by
  simp only [mainRun]
  rw [← List.append_assoc, List.getLast?_concat]

end HpSmart
